import Mathlib

/-!
# StateSync — a shallow embedding of `src/index.js`

This file embeds the StateSync reactive-store module in Lean and proves
properties of the embedding.

Modelling conventions:

* JavaScript values are `JsVal`; plain objects are insertion-ordered
  association lists (`Obj`), which matches the enumeration order of string
  keys in JS objects.  `{ ...a, ...b }` is `mergeObj`, assignment to a key
  is `upsertA` (update-in-place when the key exists, append otherwise).
* The module state (the three private maps `stores`, `listeners`,
  `derivedStates`) is a `Registry`.  Listener callbacks are identified by
  natural numbers; invoking a listener is recorded as a `NotifEvent` in the
  returned `Log`, in invocation order.  Listeners are treated as pure
  observers (the spec declares listener-set mutation during iteration
  undefined behaviour, and no claim depends on re-entrant listeners).
* Effectful operations return `Except JsErr _`; a thrown `TypeError` is
  `JsErr.typeError`.  The re-entrant `set → update → set` recursion is
  bounded by explicit `fuel`; exhausting it is `JsErr.stackOverflow`,
  modelling the unbounded recursion the spec documents for cyclic
  dependency graphs.  On an error the mutated registry is discarded; the
  claims under study only use whether an error is raised.
* Object spread (`{ ...x }`) is the identity on the pure value level; the
  aliasing content of the shallow copy made by `get()` is modelled
  separately with a small heap (`Heap`) at the end of the definitions.
-/

namespace StateSync

/-- A JavaScript value: `undefined`, `null`, booleans, (integer) numbers,
strings, and plain objects as insertion-ordered association lists. -/
inductive JsVal where
  | undef
  | null
  | bool (b : Bool)
  | num (n : Int)
  | str (s : String)
  | obj (fields : List (String × JsVal))

/-- A plain JS object: its (insertion-ordered) list of own properties. -/
abbrev Obj := List (String × JsVal)

/-- Runtime errors that the embedded code can raise. -/
inductive JsErr where
  | typeError
  | stackOverflow
deriving DecidableEq

/-- One listener invocation: callback `listener` of store `store` called
with `(next, prev)`. -/
structure NotifEvent where
  store : String
  listener : Nat
  next : Obj
  prev : Obj

/-- The sequence of listener invocations produced by an operation. -/
abbrev Log := List NotifEvent

/-! ## Association-list primitives (JS object / plain-map semantics) -/

/-- First-match lookup of a key in an association list (`o[k]`,
`map[k]`). -/
def lookupA {α : Type} (k : String) : List (String × α) → Option α
  | [] => none
  | (k', v) :: rest => if k' = k then some v else lookupA k rest

/-- Whether the association list has the key. -/
def hasKeyA {α : Type} (k : String) (l : List (String × α)) : Bool :=
  l.any (fun p => p.1 == k)

/-- Replace the value at every binding of `k` (JS objects never hold
duplicate keys, so this is the in-place update of the unique binding). -/
def replaceA {α : Type} (k : String) (v : α) : List (String × α) → List (String × α)
  | [] => []
  | (k', w) :: rest =>
    if k' = k then (k, v) :: replaceA k v rest else (k', w) :: replaceA k v rest

/-- Key assignment `m[k] = v`: update in place if present (keeping the
key's position), append otherwise.  This is JS property-assignment order
semantics. -/
def upsertA {α : Type} (l : List (String × α)) (k : String) (v : α) : List (String × α) :=
  if hasKeyA k l then replaceA k v l else l ++ [(k, v)]

/-- Shallow object merge `{ ...s, ...u }`: assign each own property of `u`
onto (a copy of) `s`, in `u`'s key order. -/
def mergeObj (s u : Obj) : Obj :=
  u.foldl (fun acc p => upsertA acc p.1 p.2) s

/-! ## The registry (the module-private `stores` / `listeners` /
`derivedStates`) -/

/-- An entry of `derivedStates`: its dependency list and compute function.
`isHandle` records whether the `store` value captured by the `update`
closure in `derive` is a real store handle (fresh `createStore`) or the
raw state object that `createStore` returns for a pre-existing name; in
the latter case `store.set` is not a function and `update` throws. -/
structure DSpec where
  deps : List String
  compute : List JsVal → Obj
  isHandle : Bool

/-- The module-private state of `StateSync`. -/
structure Registry where
  stores : List (String × Obj)
  listeners : List (String × List Nat)
  derived : List (String × DSpec)

/-- The registry at module initialisation. -/
def emptyRegistry : Registry := ⟨[], [], []⟩

/-- `stores[name]` as a JS value (`undefined` when absent). -/
def storeVal (reg : Registry) (name : String) : JsVal :=
  match lookupA name reg.stores with
  | none => .undef
  | some o => .obj o

/-- `{ ...stores[name] }` — the fields of the named store, `{}` when the
store is absent (spreading `undefined` yields an empty object). -/
def storeObjD (reg : Registry) (name : String) : Obj :=
  (lookupA name reg.stores).getD []

/-- The listener set of a store, as an insertion-ordered duplicate-free
list (`Set` iteration order), `[]` when absent. -/
def listenersOf (reg : Registry) (name : String) : List Nat :=
  (lookupA name reg.listeners).getD []

/-- An `updater` argument of `set`: either a function `(prev) => next` or
a partial object merged shallowly onto the previous snapshot. -/
inductive Updater where
  | ofn (f : Obj → Obj)
  | oobj (o : Obj)

/-- `typeof updater === 'function' ? updater(prevState)
: { ...prevState, ...updater }`. -/
def applyUpdater : Updater → Obj → Obj
  | .ofn f, prev => f prev
  | .oobj o, prev => mergeObj prev o

/-- The listener fan-out of one `set` transition:
`listeners[name].forEach(listener => listener(nextState, prevState))`,
skipped when `silent`.  Accessing `listeners[name]` when the entry is
absent throws (`forEach` of `undefined`). -/
def notifyList (reg : Registry) (name : String) (next prev : Obj) (silent : Bool) :
    Except JsErr Log :=
  if silent then .ok [] else
    match lookupA name reg.listeners with
    | none => .error .typeError
    | some ls => .ok (ls.map fun lid => NotifEvent.mk name lid next prev)

/-- The body of the `update` closure registered by `derive`:
read the current live state of every store in `deps` (raw, in list
order), apply `computeFn` to them positionally, and `set` the result onto
the backing store non-silently.  When the captured `store` is the raw
state object (`isHandle = false`), `store.set` is not a function and the
call throws.  `recur` is the `set` implementation (tied at a given fuel).
-/
def runUpdate (recur : Registry → String → Updater → Bool → Except JsErr (Registry × Log × Obj))
    (reg : Registry) (key : String) (d : DSpec) : Except JsErr (Registry × Log) :=
  if d.isHandle then
    (recur reg key (Updater.oobj (d.compute (d.deps.map (storeVal reg)))) false).bind
      (fun out => .ok (out.1, out.2.1))
  else .error .typeError

/-- The derived-graph scan at the end of `set`:
`Object.keys(derivedStates).forEach(key => if deps.includes(name) then
update())`.  `Object.keys` snapshots the key list before iterating and
`derivedStates` is never mutated during a `set`, so iterating the
entry-list snapshot is faithful. -/
def scanDeps (recur : Registry → String → Updater → Bool → Except JsErr (Registry × Log × Obj)) :
    List (String × DSpec) → Registry → String → Except JsErr (Registry × Log)
  | [], reg, _ => .ok (reg, [])
  | (key, d) :: rest, reg, name =>
    if name ∈ d.deps then
      (runUpdate recur reg key d).bind fun rl =>
        (scanDeps recur rest rl.1 name).bind fun rl2 =>
          .ok (rl2.1, rl.2 ++ rl2.2)
    else scanDeps recur rest reg name

/-- The `set` method of a store handle for `name` (src/index.js lines
23–44): capture `prevState = { ...stores[name] }`, compute `nextState`,
replace `stores[name]`, notify this store's listeners unless `silent`,
then re-run every derived spec whose `deps` include `name`.  Returns the
notification log and `nextState`.  `fuel` bounds the re-entrant
`set → update → set` recursion depth; a true dependency cycle exhausts it
(`stackOverflow`), as the spec documents. -/
def setStore : Nat → Registry → String → Updater → Bool → Except JsErr (Registry × Log × Obj)
  | 0, _, _, _, _ => .error .stackOverflow
  | fuel + 1, reg, name, u, silent =>
    let prev : Obj := storeObjD reg name
    let next : Obj := applyUpdater u prev
    let reg1 : Registry := { reg with stores := upsertA reg.stores name next }
    (notifyList reg name next prev silent).bind fun notif =>
      (scanDeps (setStore fuel) reg1.derived reg1 name).bind fun rd =>
        .ok (rd.1, notif ++ rd.2, next)

/-- Result of `createStore`: a fresh store handle (closed over `name`),
or — when the name is already registered — the raw state object
`stores[name]` itself, which has none of the handle methods. -/
inductive CreateRes where
  | handle (name : String)
  | raw (o : Obj)

/-- `createStore(name, initialState = {})` (src/index.js lines 12–17):
`if (stores[name]) return stores[name]` — objects are always truthy, so a
registered name returns the raw state object; otherwise register
`stores[name] = { ...initialState }` (the copy is value-equal) and an
empty listener set, and return a fresh handle. -/
def createStoreM (reg : Registry) (name : String) (initialState : Obj) :
    Registry × CreateRes :=
  match lookupA name reg.stores with
  | some o => (reg, .raw o)
  | none =>
    ({ reg with
        stores := upsertA reg.stores name initialState,
        listeners := upsertA reg.listeners name [] },
     .handle name)

/-- `derive(name, deps, computeFn)` (src/index.js lines 77–90):
`createStore(name)` (empty initial state), register
`derivedStates[name] = { deps, update }`, run `update()` once, return the
`createStore` result.  When the name was already registered the captured
`store` is the raw state object and the initial `update()` throws at
`store.set`; `runUpdate` raises the same `typeError` (the pure
`computeFn` call that JS performs just before the throw is unobservable).
-/
def deriveM (fuel : Nat) (reg : Registry) (name : String) (deps : List String)
    (computeFn : List JsVal → Obj) : Except JsErr (Registry × Log × CreateRes) :=
  let cr := createStoreM reg name []
  let isH := match cr.2 with | .handle _ => true | .raw _ => false
  let d : DSpec := ⟨deps, computeFn, isH⟩
  let reg2 : Registry := { cr.1 with derived := upsertA cr.1.derived name d }
  (runUpdate (setStore fuel) reg2 name d).bind fun rl => .ok (rl.1, rl.2, cr.2)

/-! ## Listener subscription -/

/-- `Set.add`: membership-unique insertion, keeping insertion order. -/
def addListener (ls : List Nat) (lid : Nat) : List Nat :=
  if lid ∈ ls then ls else ls ++ [lid]

/-- `Set.delete`: remove the callback; a no-op when absent. -/
def removeListener (ls : List Nat) (lid : Nat) : List Nat :=
  ls.filter (fun x => x != lid)

/-- `subscribe(callback)` (src/index.js lines 47–50): add the callback to
`listeners[name]`. -/
def subscribe (reg : Registry) (name : String) (lid : Nat) : Registry :=
  { reg with listeners := upsertA reg.listeners name (addListener (listenersOf reg name) lid) }

/-- The unsubscribe closure returned by `subscribe`:
`() => listeners[name].delete(callback)`. -/
def unsubscribe (reg : Registry) (name : String) (lid : Nat) : Registry :=
  { reg with listeners := upsertA reg.listeners name (removeListener (listenersOf reg name) lid) }

/-! ## `get` and nested paths -/

/-- Plain property access `o[k]`: throws on `undefined`/`null`, reads the
own property of an object (absent keys give `undefined`), and yields
`undefined` on other primitives (built-in properties of boxed primitives
are outside the spec's scope). -/
def propAccess : JsVal → String → Except JsErr JsVal
  | .undef, _ => .error .typeError
  | .null, _ => .error .typeError
  | .bool _, _ => .ok .undef
  | .num _, _ => .ok .undef
  | .str _, _ => .ok .undef
  | .obj fs, k => .ok ((lookupA k fs).getD .undef)

/-- Optional-chained access `o?.[k]`: short-circuits nullish receivers to
`undefined` instead of throwing. -/
def optChain : JsVal → String → Except JsErr JsVal
  | .undef, _ => .ok .undef
  | .null, _ => .ok .undef
  | v, k => propAccess v k

/-- `path.split('.').reduce((o, key) => o?.[key], obj)`, over the
already-split key list. -/
def nestLookup : JsVal → List String → Except JsErr JsVal
  | v, [] => .ok v
  | v, k :: rest => (optChain v k).bind fun v' => nestLookup v' rest

/-- `getNestedValue(obj, path)` (src/index.js lines 93–95). -/
def getNestedValue (o : JsVal) (path : String) : Except JsErr JsVal :=
  nestLookup o (path.splitOn ".")

/-- The `get` method of a store handle (src/index.js line 20):
`path ? getNestedValue(stores[name], path) : { ...stores[name] }`
(the empty string is falsy). -/
def storeGet (reg : Registry) (name : String) (path : Option String) :
    Except JsErr JsVal :=
  match path with
  | some p => if p = "" then .ok (.obj (storeObjD reg name)) else getNestedValue (storeVal reg name) p
  | none => .ok (.obj (storeObjD reg name))

/-! ## A small heap, for the aliasing content of `get()`'s shallow copy

The pure registry model identifies objects with their values, so it
cannot express "mutating the returned object".  `Heap` restores object
identity at the one point the claims need it: addresses index a list of
objects, `get()` allocates a fresh object carrying the same top-level
fields (`{ ...stores[name] }`), and a caller's top-level write targets an
address. -/

structure Heap where
  objs : List Obj

/-- Dereference an address (the empty object for dangling addresses,
which the theorems exclude). -/
def Heap.read (h : Heap) (a : Nat) : Obj :=
  (h.objs[a]?).getD []

/-- Allocate a fresh object, returning its address. -/
def Heap.alloc (h : Heap) (o : Obj) : Heap × Nat :=
  (⟨h.objs ++ [o]⟩, h.objs.length)

/-- A caller's top-level property write `target[k] = v`. -/
def Heap.writeField (h : Heap) (a : Nat) (k : String) (v : JsVal) : Heap :=
  ⟨h.objs.set a (upsertA (h.read a) k v)⟩

/-- `get()` with no path against the store object at address `store`:
allocate `{ ...stores[name] }` — a fresh object with the same top-level
fields — and hand its address to the caller. -/
def getSnapshot (h : Heap) (store : Nat) : Heap × Nat :=
  h.alloc (h.read store)

/-! ## Derived-consistency vocabulary -/

/-- The value `update` would write right now: `computeFn` applied to the
current live states of the `deps`, positionally in list order. -/
def computeNow (reg : Registry) (d : DSpec) : Obj :=
  d.compute (d.deps.map (storeVal reg))

/-- The derived store `k` agrees with its spec `d`: every binding of the
current recomputation value is present in the store's state.  (The state
may hold further keys: `set` writes recomputation results with a shallow
merge, so keys absent from a later `compute` result persist.) -/
def agreeAt (reg : Registry) (k : String) (d : DSpec) : Prop :=
  ∀ key v, lookupA key (computeNow reg d) = some v →
    lookupA key (storeObjD reg k) = some v

/-- `derivedStates` has one spec per name (a JS object cannot hold a
duplicate key). -/
def DerivedKeysNodup (reg : Registry) : Prop :=
  (reg.derived.map Prod.fst).Nodup

/-- Every registered compute function returns objects without duplicate
keys (any actual JS object satisfies this). -/
def ComputesNodup (reg : Registry) : Prop :=
  ∀ k d, (k, d) ∈ reg.derived → ∀ ins, ((d.compute ins).map Prod.fst).Nodup

/-- Postcondition of a `set` implementation `recur` on store `s`: every
derived spec other than `s` itself that depended on `s`, or that already
agreed with its compute value, agrees in the final registry. -/
def SProp (recur : Registry → String → Updater → Bool → Except JsErr (Registry × Log × Obj)) :
    Prop :=
  ∀ reg s u si r l n, recur reg s u si = .ok (r, l, n) →
    DerivedKeysNodup reg → ComputesNodup reg →
    ∀ k d, (k, d) ∈ reg.derived → k ≠ s →
      (agreeAt reg k d ∨ s ∈ d.deps) → agreeAt r k d

/-- Postcondition of a `set` implementation `recur` performing exactly
what `runUpdate` performs (writing a derived store's current
recomputation value, non-silently): the derived store agrees
afterwards. -/
def SelfProp (recur : Registry → String → Updater → Bool → Except JsErr (Registry × Log × Obj)) :
    Prop :=
  ∀ reg key d r l x, recur reg key (.oobj (computeNow reg d)) false = .ok (r, l, x) →
    DerivedKeysNodup reg → ComputesNodup reg → (key, d) ∈ reg.derived →
    agreeAt r key d

/-! ## Concrete scenarios used in the claim analyses -/

/-- The first object in a dependent-state list (the empty object
otherwise); a helper for concrete compute functions. -/
def headObj : List JsVal → Obj
  | (JsVal.obj o) :: _ => o
  | _ => []

/-- A compute function whose result key set depends on its input:
`{p: 1}` once the dependency has an `x` key, `{q: 2}` before. -/
def branchCompute (ins : List JsVal) : Obj :=
  if (lookupA "x" (headObj ins)).isSome then [("p", JsVal.num 1)]
  else [("q", JsVal.num 2)]

/-- A constant compute function `() => ({m: 3})`. -/
def constCompute : List JsVal → Obj := fun _ => [("m", JsVal.num 3)]

/-- The derived spec registered by `derive("d", ["a"], branchCompute)`. -/
def dspecB : DSpec := ⟨["a"], branchCompute, true⟩

/-- The registry after `createStore("a", {})`. -/
def regA0 : Registry := (createStoreM emptyRegistry "a" []).1

/-- The registry after `createStore("a", {})` and
`derive("d", ["a"], branchCompute)`. -/
def regA1 : Registry :=
  ⟨[("a", []), ("d", [("q", JsVal.num 2)])], [("a", []), ("d", [])], [("d", dspecB)]⟩

/-- `regA1` after `aStore.set({x: 1})`. -/
def regA2 : Registry :=
  ⟨[("a", [("x", JsVal.num 1)]), ("d", [("q", JsVal.num 2), ("p", JsVal.num 1)])],
   [("a", []), ("d", [])], [("d", dspecB)]⟩

/-- `regA1` after a caller invokes `dStore.set({z: 9})` directly on the
derived store's handle. -/
def regA3 : Registry :=
  ⟨[("a", []), ("d", [("q", JsVal.num 2), ("z", JsVal.num 9)])],
   [("a", []), ("d", [])], [("d", dspecB)]⟩

/-- The derived spec registered by `derive("d", ["a"], constCompute)`. -/
def dspecC : DSpec := ⟨["a"], constCompute, true⟩

/-- A registry with store `a` (one listener, id 7) and a derived store
`d = constCompute(a)`: reached by `createStore("a", {})`,
`subscribe`, `derive("d", ["a"], constCompute)`. -/
def regW : Registry :=
  ⟨[("a", []), ("d", [("m", JsVal.num 3)])], [("a", [7]), ("d", [])], [("d", dspecC)]⟩

/-- `regW` after `aStore.set({x: 1})`. -/
def regWFinal : Registry :=
  ⟨[("a", [("x", JsVal.num 1)]), ("d", [("m", JsVal.num 3)])],
   [("a", [7]), ("d", [])], [("d", dspecC)]⟩

/-- A registry with a single store `s` holding listener 5. -/
def regS : Registry := ⟨[("s", [])], [("s", [5])], []⟩

/-- A one-object heap: the state object of a store, at address 0. -/
def heapW : Heap := ⟨[[("k", JsVal.num 0)]]⟩

/-! ## Association-list lemmas -/

theorem lookupA_eq_none {α : Type} {k : String} {l : List (String × α)}
    (h : k ∉ l.map Prod.fst) : lookupA k l = none := by
  induction l with
  | nil => rfl
  | cons p rest ih =>
    obtain ⟨k', v⟩ := p
    simp only [List.map_cons, List.mem_cons, not_or] at h
    rw [lookupA, if_neg (fun hh : k' = k => h.1 hh.symm)]
    exact ih h.2

theorem hasKeyA_iff {α : Type} {k : String} {l : List (String × α)} :
    hasKeyA k l = true ↔ k ∈ l.map Prod.fst := by
  simp [hasKeyA, List.any_eq_true, List.mem_map, beq_iff_eq]

theorem lookupA_replaceA_self {α : Type} {k : String} {v : α} {l : List (String × α)}
    (h : k ∈ l.map Prod.fst) : lookupA k (replaceA k v l) = some v := by
  induction l with
  | nil => simp at h
  | cons p rest ih =>
    obtain ⟨k', w⟩ := p
    by_cases hk : k' = k
    · rw [replaceA, if_pos hk, lookupA, if_pos rfl]
    · simp only [List.map_cons, List.mem_cons] at h
      rcases h with h | h
      · exact absurd h.symm hk
      · rw [replaceA, if_neg hk, lookupA, if_neg hk]
        exact ih h

theorem lookupA_replaceA_ne {α : Type} {k' k : String} (hne : k' ≠ k) (v : α)
    (l : List (String × α)) : lookupA k' (replaceA k v l) = lookupA k' l := by
  induction l with
  | nil => rfl
  | cons p rest ih =>
    obtain ⟨k0, w⟩ := p
    by_cases hk : k0 = k
    · rw [replaceA, if_pos hk, lookupA, if_neg (fun hh : k = k' => hne hh.symm),
        lookupA, if_neg (fun hh : k0 = k' => hne (hh.symm.trans hk))]
      exact ih
    · rw [replaceA, if_neg hk, lookupA, lookupA, ih]

theorem lookupA_append_self {α : Type} {k : String} {v : α} :
    ∀ {l : List (String × α)}, k ∉ l.map Prod.fst →
      lookupA k (l ++ [(k, v)]) = some v := by
  intro l
  induction l with
  | nil => intro _; simp [lookupA]
  | cons p rest ih =>
    obtain ⟨k', w⟩ := p
    intro h
    simp only [List.map_cons, List.mem_cons, not_or] at h
    rw [List.cons_append, lookupA, if_neg (fun hh : k' = k => h.1 hh.symm)]
    exact ih h.2

theorem lookupA_append_ne {α : Type} {k' k : String} (hne : k' ≠ k) (v : α) :
    ∀ (l : List (String × α)), lookupA k' (l ++ [(k, v)]) = lookupA k' l := by
  intro l
  induction l with
  | nil => simp [lookupA, if_neg (fun hh : k = k' => hne hh.symm)]
  | cons p rest ih =>
    obtain ⟨k0, w⟩ := p
    rw [List.cons_append, lookupA, lookupA, ih]

theorem lookupA_upsertA_self {α : Type} (l : List (String × α)) (k : String) (v : α) :
    lookupA k (upsertA l k v) = some v := by
  unfold upsertA
  by_cases h : hasKeyA k l = true
  · rw [if_pos h]
    exact lookupA_replaceA_self (hasKeyA_iff.mp h)
  · rw [if_neg h]
    exact lookupA_append_self (fun hm => h (hasKeyA_iff.mpr hm))

theorem lookupA_upsertA_ne {α : Type} {k' k : String} (hne : k' ≠ k)
    (l : List (String × α)) (v : α) :
    lookupA k' (upsertA l k v) = lookupA k' l := by
  unfold upsertA
  by_cases h : hasKeyA k l = true
  · rw [if_pos h]
    exact lookupA_replaceA_ne hne v l
  · rw [if_neg h]
    exact lookupA_append_ne hne v l

theorem lookupA_mergeObj_none {k : String} :
    ∀ (u s : Obj), lookupA k u = none → lookupA k (mergeObj s u) = lookupA k s := by
  intro u
  induction u with
  | nil => intro s _; rfl
  | cons p rest ih =>
    obtain ⟨k0, v0⟩ := p
    intro s h
    simp only [lookupA] at h
    by_cases hk : k0 = k
    · simp [hk] at h
    · rw [if_neg hk] at h
      show lookupA k (mergeObj (upsertA s k0 v0) rest) = lookupA k s
      rw [ih (upsertA s k0 v0) h, lookupA_upsertA_ne (fun hh => hk hh.symm)]

theorem lookupA_mergeObj_some {k : String} {v : JsVal} :
    ∀ (u s : Obj), (u.map Prod.fst).Nodup → lookupA k u = some v →
      lookupA k (mergeObj s u) = some v := by
  intro u
  induction u with
  | nil => intro s _ h; simp [lookupA] at h
  | cons p rest ih =>
    obtain ⟨k0, v0⟩ := p
    intro s hnd h
    simp only [List.map_cons, List.nodup_cons] at hnd
    simp only [lookupA] at h
    by_cases hk : k0 = k
    · rw [if_pos hk] at h
      obtain rfl : v0 = v := by injection h
      subst hk
      show lookupA k0 (mergeObj (upsertA s k0 v0) rest) = some v0
      rw [lookupA_mergeObj_none rest _ (lookupA_eq_none hnd.1),
        lookupA_upsertA_self]
    · rw [if_neg hk] at h
      exact ih (upsertA s k0 v0) hnd.2 h

theorem mem_unique_of_nodup_keys {α : Type} {l : List (String × α)}
    (h : (l.map Prod.fst).Nodup) {k : String} {d1 d2 : α}
    (h1 : (k, d1) ∈ l) (h2 : (k, d2) ∈ l) : d1 = d2 := by
  induction l with
  | nil => simp at h1
  | cons p rest ih =>
    obtain ⟨k', v⟩ := p
    simp only [List.map_cons, List.nodup_cons] at h
    rcases List.mem_cons.mp h1 with e1 | m1 <;> rcases List.mem_cons.mp h2 with e2 | m2
    · injection e1 with _ hv1
      injection e2 with _ hv2
      exact hv1.trans hv2.symm
    · injection e1 with hk _
      exact absurd (hk ▸ List.mem_map_of_mem Prod.fst m2) h.1
    · injection e2 with hk _
      exact absurd (hk ▸ List.mem_map_of_mem Prod.fst m1) h.1
    · exact ih h.2 m1 m2

/-! ## Registry write lemmas -/

theorem storeObjD_write_self (reg : Registry) (s : String) (o : Obj) :
    storeObjD { reg with stores := upsertA reg.stores s o } s = o := by
  simp [storeObjD, lookupA_upsertA_self]

theorem storeObjD_write_ne (reg : Registry) {c s : String} (h : c ≠ s) (o : Obj) :
    storeObjD { reg with stores := upsertA reg.stores s o } c = storeObjD reg c := by
  simp [storeObjD, lookupA_upsertA_ne h]

theorem storeVal_write_ne (reg : Registry) {c s : String} (h : c ≠ s) (o : Obj) :
    storeVal { reg with stores := upsertA reg.stores s o } c = storeVal reg c := by
  simp [storeVal, lookupA_upsertA_ne h]

theorem computeNow_write_not_dep (reg : Registry) {s : String} (d : DSpec)
    (h : s ∉ d.deps) (o : Obj) :
    computeNow { reg with stores := upsertA reg.stores s o } d = computeNow reg d := by
  unfold computeNow
  congr 1
  exact List.map_congr_left fun c hc =>
    storeVal_write_ne reg (fun hh : c = s => h (hh ▸ hc)) o

/-! ## Shape lemmas for the recursive operations -/

theorem exbind_ok {α β : Type} {e : Except JsErr α} {f : α → Except JsErr β} {b : β} :
    e.bind f = .ok b ↔ ∃ a, e = .ok a ∧ f a = .ok b := by
  cases e with
  | error e => simp [Except.bind]
  | ok a => simp [Except.bind]

theorem runUpdate_ok_elim {recur : Registry → String → Updater → Bool → Except JsErr (Registry × Log × Obj)}
    {reg : Registry} {key : String} {d : DSpec} {r : Registry} {l : Log}
    (h : runUpdate recur reg key d = .ok (r, l)) :
    d.isHandle = true ∧
      ∃ x, recur reg key (.oobj (computeNow reg d)) false = .ok (r, l, x) := by
  unfold runUpdate at h
  by_cases hH : d.isHandle
  · rw [if_pos hH] at h
    obtain ⟨⟨r1, l1, x1⟩, hc, hout⟩ := exbind_ok.mp h
    injection hout with hout
    obtain ⟨h1, h2⟩ : r1 = r ∧ l1 = l := ⟨congrArg Prod.fst hout, congrArg Prod.snd hout⟩
    subst h1; subst h2
    exact ⟨hH, x1, hc⟩
  · rw [if_neg hH] at h
    exact Except.noConfusion h

theorem runUpdate_ok_intro {recur : Registry → String → Updater → Bool → Except JsErr (Registry × Log × Obj)}
    {reg : Registry} {key : String} {d : DSpec} {r : Registry} {l : Log} {x : Obj}
    (hH : d.isHandle = true)
    (h : recur reg key (.oobj (computeNow reg d)) false = .ok (r, l, x)) :
    runUpdate recur reg key d = .ok (r, l) := by
  unfold runUpdate
  rw [if_pos hH]
  exact exbind_ok.mpr ⟨(r, l, x), h, rfl⟩

theorem setStore_succ_elim {f : Nat} {reg : Registry} {name : String} {u : Updater}
    {si : Bool} {r : Registry} {l : Log} {n : Obj}
    (h : setStore (f + 1) reg name u si = .ok (r, l, n)) :
    n = applyUpdater u (storeObjD reg name) ∧
      ∃ notif dlog,
        notifyList reg name (applyUpdater u (storeObjD reg name)) (storeObjD reg name) si
          = .ok notif ∧
        scanDeps (setStore f) reg.derived
          { reg with stores := upsertA reg.stores name (applyUpdater u (storeObjD reg name)) }
          name = .ok (r, dlog) ∧
        l = notif ++ dlog := by
  rw [setStore] at h
  obtain ⟨notif, hn, h⟩ := exbind_ok.mp h
  obtain ⟨⟨r2, dlog⟩, hs, hout⟩ := exbind_ok.mp h
  injection hout with hout
  have h1 : r2 = r := congrArg Prod.fst hout
  have h2 : notif ++ dlog = l := congrArg (fun z => z.2.1) hout
  have h3 : applyUpdater u (storeObjD reg name) = n := congrArg (fun z => z.2.2) hout
  subst h1; subst h2; subst h3
  exact ⟨rfl, notif, dlog, hn, hs, rfl⟩

theorem setStore_succ_intro {f : Nat} {reg : Registry} {name : String} {u : Updater}
    {si : Bool} {r : Registry} {notif dlog : Log}
    (hn : notifyList reg name (applyUpdater u (storeObjD reg name)) (storeObjD reg name) si
      = .ok notif)
    (hs : scanDeps (setStore f) reg.derived
      { reg with stores := upsertA reg.stores name (applyUpdater u (storeObjD reg name)) }
      name = .ok (r, dlog)) :
    setStore (f + 1) reg name u si
      = .ok (r, notif ++ dlog, applyUpdater u (storeObjD reg name)) := by
  rw [setStore]
  exact exbind_ok.mpr ⟨notif, hn, exbind_ok.mpr ⟨(r, dlog), hs, rfl⟩⟩

theorem scanDeps_nil_eq (recur : Registry → String → Updater → Bool → Except JsErr (Registry × Log × Obj))
    (reg : Registry) (name : String) : scanDeps recur [] reg name = .ok (reg, []) := rfl

theorem scanDeps_cons_not_mem {recur : Registry → String → Updater → Bool → Except JsErr (Registry × Log × Obj)}
    {key : String} {d : DSpec} {rest : List (String × DSpec)} {reg : Registry} {name : String}
    (hm : name ∉ d.deps) :
    scanDeps recur ((key, d) :: rest) reg name = scanDeps recur rest reg name := by
  rw [scanDeps, if_neg hm]

theorem scanDeps_cons_mem_elim {recur : Registry → String → Updater → Bool → Except JsErr (Registry × Log × Obj)}
    {key : String} {d : DSpec} {rest : List (String × DSpec)} {reg : Registry} {name : String}
    {r2 : Registry} {l : Log} (hm : name ∈ d.deps)
    (h : scanDeps recur ((key, d) :: rest) reg name = .ok (r2, l)) :
    ∃ r1 l1 l2, runUpdate recur reg key d = .ok (r1, l1) ∧
      scanDeps recur rest r1 name = .ok (r2, l2) ∧ l = l1 ++ l2 := by
  rw [scanDeps, if_pos hm] at h
  obtain ⟨⟨r1, l1⟩, hru, h⟩ := exbind_ok.mp h
  obtain ⟨⟨r2', l2⟩, hsc, hout⟩ := exbind_ok.mp h
  injection hout with hout
  have h1 : r2' = r2 := congrArg Prod.fst hout
  have h2 : l1 ++ l2 = l := congrArg Prod.snd hout
  subst h1; subst h2
  exact ⟨r1, l1, l2, hru, hsc, rfl⟩

theorem scanDeps_cons_mem_intro {recur : Registry → String → Updater → Bool → Except JsErr (Registry × Log × Obj)}
    {key : String} {d : DSpec} {rest : List (String × DSpec)} {reg : Registry} {name : String}
    {r1 r2 : Registry} {l1 l2 : Log} (hm : name ∈ d.deps)
    (hru : runUpdate recur reg key d = .ok (r1, l1))
    (hsc : scanDeps recur rest r1 name = .ok (r2, l2)) :
    scanDeps recur ((key, d) :: rest) reg name = .ok (r2, l1 ++ l2) := by
  rw [scanDeps, if_pos hm]
  exact exbind_ok.mpr ⟨(r1, l1), hru, exbind_ok.mpr ⟨(r2, l2), hsc, rfl⟩⟩

theorem notifyList_silent (reg : Registry) (name : String) (next prev : Obj) :
    notifyList reg name next prev true = .ok [] := rfl

theorem notifyList_some {reg : Registry} {name : String} {ls : List Nat}
    (hls : lookupA name reg.listeners = some ls) (next prev : Obj) :
    notifyList reg name next prev false
      = .ok (ls.map fun lid => NotifEvent.mk name lid next prev) := by
  unfold notifyList
  rw [if_neg (by simp), hls]

theorem notifyList_ok_elim {reg : Registry} {name : String} {next prev : Obj} {notif : Log}
    (h : notifyList reg name next prev false = .ok notif) :
    ∃ ls, lookupA name reg.listeners = some ls ∧
      notif = ls.map fun lid => NotifEvent.mk name lid next prev := by
  unfold notifyList at h
  rw [if_neg (by simp)] at h
  cases hls : lookupA name reg.listeners with
  | none => rw [hls] at h; exact Except.noConfusion h
  | some ls =>
    rw [hls] at h
    injection h with h
    exact ⟨ls, rfl, h.symm⟩

/-! ## `set` never touches `listeners` or `derivedStates` -/

theorem scanDeps_fields {recur : Registry → String → Updater → Bool → Except JsErr (Registry × Log × Obj)}
    (hrec : ∀ reg s u si out, recur reg s u si = .ok out →
      out.1.derived = reg.derived ∧ out.1.listeners = reg.listeners) :
    ∀ (specs : List (String × DSpec)) (reg : Registry) (name : String) (out : Registry × Log),
      scanDeps recur specs reg name = .ok out →
        out.1.derived = reg.derived ∧ out.1.listeners = reg.listeners := by
  intro specs
  induction specs with
  | nil =>
    intro reg name out h
    rw [scanDeps_nil_eq] at h
    injection h with h
    rw [← h]
    exact ⟨rfl, rfl⟩
  | cons p rest ih =>
    obtain ⟨key, d⟩ := p
    intro reg name out h
    obtain ⟨r2, l⟩ := out
    by_cases hm : name ∈ d.deps
    · obtain ⟨r1, l1, l2, hru, hsc, -⟩ := scanDeps_cons_mem_elim hm h
      obtain ⟨-, x, hcall⟩ := runUpdate_ok_elim hru
      obtain ⟨hd1, hl1⟩ := hrec _ _ _ _ _ hcall
      obtain ⟨hd2, hl2⟩ := ih r1 name (r2, l2) hsc
      exact ⟨hd2.trans hd1, hl2.trans hl1⟩
    · rw [scanDeps_cons_not_mem hm] at h
      exact ih reg name (r2, l) h

theorem setStore_fields :
    ∀ (fuel : Nat) (reg : Registry) (name : String) (u : Updater) (si : Bool)
      (out : Registry × Log × Obj), setStore fuel reg name u si = .ok out →
      out.1.derived = reg.derived ∧ out.1.listeners = reg.listeners := by
  intro fuel
  induction fuel with
  | zero => intro reg name u si out h; exact Except.noConfusion h
  | succ f ih =>
    intro reg name u si out h
    obtain ⟨r, l, n⟩ := out
    obtain ⟨-, notif, dlog, -, hsc, -⟩ := setStore_succ_elim h
    exact scanDeps_fields ih reg.derived
      { reg with stores := upsertA reg.stores name (applyUpdater u (storeObjD reg name)) }
      name (r, dlog) hsc

/-- During a `set`, the only stores written are the `set` target and the
backing stores of derived specs (whose keys are in `derivedStates`). -/
theorem scanDeps_frame {recur : Registry → String → Updater → Bool → Except JsErr (Registry × Log × Obj)}
    (hrecF : ∀ reg s u si r l n, recur reg s u si = .ok (r, l, n) →
      ∀ c, c ≠ s → c ∉ reg.derived.map Prod.fst → storeObjD r c = storeObjD reg c)
    (hrecD : ∀ reg s u si out, recur reg s u si = .ok out →
      out.1.derived = reg.derived ∧ out.1.listeners = reg.listeners) :
    ∀ (specs : List (String × DSpec)) (reg : Registry) (name : String) (r : Registry) (l : Log),
      scanDeps recur specs reg name = .ok (r, l) →
      (∀ p ∈ specs, p ∈ reg.derived) →
      ∀ c, c ∉ reg.derived.map Prod.fst → storeObjD r c = storeObjD reg c := by
  intro specs
  induction specs with
  | nil =>
    intro reg name r l h _ c _
    rw [scanDeps_nil_eq] at h
    injection h with h
    have h1 : reg = r := congrArg Prod.fst h
    rw [← h1]
  | cons p rest ih =>
    obtain ⟨key, d⟩ := p
    intro reg name r l h hsub c hc
    by_cases hm : name ∈ d.deps
    · obtain ⟨r1, l1, l2, hru, hsc, -⟩ := scanDeps_cons_mem_elim hm h
      obtain ⟨-, x, hcall⟩ := runUpdate_ok_elim hru
      have hkey : key ∈ reg.derived.map Prod.fst :=
        List.mem_map_of_mem Prod.fst (hsub (key, d) (List.mem_cons_self _ _))
      have hck : c ≠ key := fun hh => hc (hh ▸ hkey)
      have hstep : storeObjD r1 c = storeObjD reg c := hrecF _ _ _ _ _ _ _ hcall c hck hc
      have hder : r1.derived = reg.derived := (hrecD _ _ _ _ _ hcall).1
      have hrest : storeObjD r c = storeObjD r1 c := by
        refine ih r1 name r l2 hsc (fun p hp => ?_) c (by rw [hder]; exact hc)
        rw [hder]
        exact hsub p (List.mem_cons_of_mem _ hp)
      exact hrest.trans hstep
    · rw [scanDeps_cons_not_mem hm] at h
      exact ih reg name r l h (fun p hp => hsub p (List.mem_cons_of_mem _ hp)) c hc

theorem setStore_frame :
    ∀ (fuel : Nat) (reg : Registry) (name : String) (u : Updater) (si : Bool)
      (r : Registry) (l : Log) (n : Obj), setStore fuel reg name u si = .ok (r, l, n) →
      ∀ c, c ≠ name → c ∉ reg.derived.map Prod.fst → storeObjD r c = storeObjD reg c := by
  intro fuel
  induction fuel with
  | zero => intro reg name u si r l n h; exact Except.noConfusion h
  | succ f ih =>
    intro reg name u si r l n h c hcn hcd
    obtain ⟨-, notif, dlog, -, hsc, -⟩ := setStore_succ_elim h
    have hW : storeObjD
        { reg with stores := upsertA reg.stores name (applyUpdater u (storeObjD reg name)) } c
        = storeObjD reg c := storeObjD_write_ne reg hcn _
    have := scanDeps_frame (fun reg' s' u' si' r' l' n' hh => ih reg' s' u' si' r' l' n' hh)
      (setStore_fields f) reg.derived _ name r dlog hsc (fun p hp => hp) c hcd
    exact this.trans hW

/-! ## The propagation postcondition

The derived-graph scan both *establishes* agreement for the specs it is
asked to recompute and *preserves* agreement for every other spec:
whenever a later recomputation overwrites a dependency of an
already-consistent spec, that write's own nested scan re-runs the spec
(its key is in the written store's dependents), re-establishing
agreement before the call returns. -/

theorem scanDeps_agree {recur : Registry → String → Updater → Bool → Except JsErr (Registry × Log × Obj)}
    (hS : SProp recur) (hSelf : SelfProp recur)
    (hFields : ∀ reg s u si out, recur reg s u si = .ok out →
      out.1.derived = reg.derived ∧ out.1.listeners = reg.listeners) :
    ∀ (specs : List (String × DSpec)) (reg : Registry) (name : String) (r : Registry) (l : Log),
      scanDeps recur specs reg name = .ok (r, l) →
      DerivedKeysNodup reg → ComputesNodup reg → (∀ p ∈ specs, p ∈ reg.derived) →
      (∀ k d, (k, d) ∈ reg.derived → agreeAt reg k d → agreeAt r k d) ∧
      (∀ k d, (k, d) ∈ specs → name ∈ d.deps → agreeAt r k d) := by
  intro specs
  induction specs with
  | nil =>
    intro reg name r l h _ _ _
    rw [scanDeps_nil_eq] at h
    injection h with h
    have h1 : reg = r := congrArg Prod.fst h
    subst h1
    exact ⟨fun k d _ ha => ha, fun k d hk _ => absurd hk (List.not_mem_nil _)⟩
  | cons p rest ih =>
    obtain ⟨key, dh⟩ := p
    intro reg name r l h hDK hCN hsub
    by_cases hm : name ∈ dh.deps
    · obtain ⟨r1, l1, l2, hru, hsc, -⟩ := scanDeps_cons_mem_elim hm h
      obtain ⟨hH, x, hcall⟩ := runUpdate_ok_elim hru
      have hmem : (key, dh) ∈ reg.derived := hsub _ (List.mem_cons_self _ _)
      have hAgree1 : agreeAt r1 key dh := hSelf _ _ _ _ _ _ hcall hDK hCN hmem
      have hfld := hFields _ _ _ _ _ hcall
      have hDK1 : DerivedKeysNodup r1 := by
        unfold DerivedKeysNodup
        rw [hfld.1]
        exact hDK
      have hCN1 : ComputesNodup r1 := fun k' d' hm' => hCN k' d' (hfld.1 ▸ hm')
      have hsub1 : ∀ p ∈ rest, p ∈ r1.derived :=
        fun p hp => hfld.1.symm ▸ hsub p (List.mem_cons_of_mem _ hp)
      obtain ⟨ihP, ihE⟩ := ih r1 name r l2 hsc hDK1 hCN1 hsub1
      constructor
      · intro k d hkd ha
        by_cases hkk : k = key
        · subst hkk
          have hd : d = dh := mem_unique_of_nodup_keys hDK hkd hmem
          subst hd
          exact ihP k d (hfld.1.symm ▸ hkd) hAgree1
        · have h1 : agreeAt r1 k d := hS _ _ _ _ _ _ _ hcall hDK hCN k d hkd hkk (Or.inl ha)
          exact ihP k d (hfld.1.symm ▸ hkd) h1
      · intro k d hkd hdep
        rcases List.mem_cons.mp hkd with he | hr
        · injection he with he1 he2
          subst he1
          subst he2
          exact ihP k d (hfld.1.symm ▸ hmem) hAgree1
        · exact ihE k d hr hdep
    · rw [scanDeps_cons_not_mem hm] at h
      obtain ⟨ihP, ihE⟩ :=
        ih reg name r l h hDK hCN (fun p hp => hsub p (List.mem_cons_of_mem _ hp))
      refine ⟨ihP, ?_⟩
      intro k d hkd hdep
      rcases List.mem_cons.mp hkd with he | hr
      · injection he with he1 he2
        subst he1
        subst he2
        exact absurd hdep hm
      · exact ihE k d hr hdep

theorem setStore_agree_master :
    ∀ fuel, SProp (setStore fuel) ∧ SelfProp (setStore fuel) := by
  intro fuel
  induction fuel with
  | zero =>
    constructor
    · intro reg s u si r l n h
      exact Except.noConfusion h
    · intro reg key d r l x h
      exact Except.noConfusion h
  | succ f ihf =>
    obtain ⟨ihS, ihSelf⟩ := ihf
    have hScan := scanDeps_agree ihS ihSelf (setStore_fields f)
    have hSelf1 : SelfProp (setStore (f + 1)) := by
      intro reg key d r l x h hDK hCN hmem
      obtain ⟨-, notif, dlog, -, hsc, -⟩ := setStore_succ_elim h
      obtain ⟨hP, hE⟩ := hScan reg.derived
        { reg with stores := (upsertA reg.stores key
            (applyUpdater (.oobj (computeNow reg d)) (storeObjD reg key))) }
        key r dlog hsc hDK hCN (fun p hp => hp)
      by_cases hdep : key ∈ d.deps
      · exact hE key d hmem hdep
      · have hAg : agreeAt
            { reg with stores := (upsertA reg.stores key
                (applyUpdater (.oobj (computeNow reg d)) (storeObjD reg key))) }
            key d := by
          intro key' v hv
          rw [computeNow_write_not_dep reg d hdep _] at hv
          rw [storeObjD_write_self reg key _]
          exact lookupA_mergeObj_some _ _ (hCN key d hmem _) hv
        exact hP key d hmem hAg
    have hS1 : SProp (setStore (f + 1)) := by
      intro reg s u si r l n h hDK hCN k d hkd hks hor
      obtain ⟨-, notif, dlog, -, hsc, -⟩ := setStore_succ_elim h
      obtain ⟨hP, hE⟩ := hScan reg.derived
        { reg with stores := upsertA reg.stores s (applyUpdater u (storeObjD reg s)) }
        s r dlog hsc hDK hCN (fun p hp => hp)
      by_cases hdep : s ∈ d.deps
      · exact hE k d hkd hdep
      · rcases hor with ha | hdep'
        · have hAg : agreeAt
              { reg with stores := upsertA reg.stores s (applyUpdater u (storeObjD reg s)) }
              k d := by
            intro key' v hv
            rw [computeNow_write_not_dep reg d hdep _] at hv
            rw [storeObjD_write_ne reg hks _]
            exact ha key' v hv
          exact hP k d hkd hAg
        · exact absurd hdep' hdep
    exact ⟨hS1, hSelf1⟩

/-! ## Nested-path lookup lemmas -/

theorem optChain_ok (v : JsVal) (k : String) : ∃ w, optChain v k = .ok w := by
  cases v <;> exact ⟨_, rfl⟩

theorem nestLookup_total (v : JsVal) (ks : List String) : ∃ w, nestLookup v ks = .ok w := by
  induction ks generalizing v with
  | nil => exact ⟨v, rfl⟩
  | cons k rest ih =>
    obtain ⟨w, hw⟩ := optChain_ok v k
    obtain ⟨w2, hw2⟩ := ih w
    refine ⟨w2, ?_⟩
    rw [nestLookup, hw]
    exact hw2

theorem nestLookup_append {v : JsVal} {ks1 : List String} {w : JsVal}
    (h : nestLookup v ks1 = .ok w) (ks2 : List String) :
    nestLookup v (ks1 ++ ks2) = nestLookup w ks2 := by
  induction ks1 generalizing v with
  | nil =>
    injection h with h
    rw [List.nil_append, h]
  | cons k rest ih =>
    obtain ⟨v', hv', hrest⟩ := exbind_ok.mp h
    rw [List.cons_append, nestLookup, hv']
    exact ih hrest

theorem nestLookup_undef (ks : List String) : nestLookup .undef ks = .ok .undef := by
  induction ks with
  | nil => rfl
  | cons k rest ih =>
    rw [nestLookup]
    exact ih

/-! ## Heap lemmas -/

theorem heap_read_alloc_fresh (h : Heap) (o : Obj) :
    (h.alloc o).1.read (h.alloc o).2 = o := by
  show ((h.objs ++ [o])[h.objs.length]?).getD [] = o
  rw [List.getElem?_concat_length]
  rfl

theorem heap_read_alloc_old (h : Heap) (o : Obj) {a : Nat} (ha : a < h.objs.length) :
    (h.alloc o).1.read a = h.read a := by
  show ((h.objs ++ [o])[a]?).getD [] = (h.objs[a]?).getD []
  rw [List.getElem?_append_left ha]

theorem heap_read_write_ne (h : Heap) {a b : Nat} (hab : a ≠ b) (k : String) (v : JsVal) :
    (h.writeField a k v).read b = h.read b := by
  show ((h.objs.set a _)[b]?).getD [] = (h.objs[b]?).getD []
  rw [List.getElem?_set_ne hab]

/-! ## Listener-set lemmas -/

theorem listenersOf_subscribe_self (reg : Registry) (name : String) (lid : Nat) :
    listenersOf (subscribe reg name lid) name = addListener (listenersOf reg name) lid := by
  unfold subscribe listenersOf
  rw [lookupA_upsertA_self]
  rfl

theorem listenersOf_unsubscribe_self (reg : Registry) (name : String) (lid : Nat) :
    listenersOf (unsubscribe reg name lid) name
      = removeListener (listenersOf reg name) lid := by
  unfold unsubscribe listenersOf
  rw [lookupA_upsertA_self]
  rfl

theorem removeListener_addListener {ls : List Nat} {lid : Nat} (h : lid ∉ ls) :
    removeListener (addListener ls lid) lid = ls := by
  unfold addListener removeListener
  rw [if_neg h, List.filter_append]
  have h1 : List.filter (fun x => x != lid) ls = ls :=
    List.filter_eq_self.mpr fun x hx => by
      simp only [bne_iff_ne, ne_eq, decide_eq_true_eq]
      exact fun hh => h (hh ▸ hx)
  have h2 : List.filter (fun x => x != lid) [lid] = [] := by simp
  rw [h1, h2, List.append_nil]

theorem removeListener_of_not_mem {ls : List Nat} {lid : Nat} (h : lid ∉ ls) :
    removeListener ls lid = ls := by
  unfold removeListener
  exact List.filter_eq_self.mpr fun x hx => by
    simp only [bne_iff_ne, ne_eq, decide_eq_true_eq]
    exact fun hh => h (hh ▸ hx)

theorem removeListener_idem (ls : List Nat) (lid : Nat) :
    removeListener (removeListener ls lid) lid = removeListener ls lid := by
  unfold removeListener
  exact List.filter_eq_self.mpr fun x hx => (List.mem_filter.mp hx).2

theorem not_mem_removeListener (ls : List Nat) (lid : Nat) :
    lid ∉ removeListener ls lid := by
  unfold removeListener
  intro hm
  have := (List.mem_filter.mp hm).2
  simp at this

theorem regW_derivedKeysNodup : DerivedKeysNodup regW := by
  unfold DerivedKeysNodup
  decide

theorem regW_computesNodup : ComputesNodup regW := by
  intro k d hm ins
  have h := List.mem_singleton.mp hm
  injection h with h1 h2
  subst h2
  exact List.nodup_singleton "m"

/-! ## The claims -/

/-- Claim C1: the spec says a second `createStore` under an existing name
returns the same store handle unchanged, with the first state, raising no
error.  Evaluating the code at the failing input `createStore("x", {a:1})`
then `createStore("x", {b:2})`: the registry is unchanged and the state
stays `{a:1}` (the second `initialState` is indeed ignored, and no error
is raised), but the second call returns the *raw state object*
(`CreateRes.raw {a:1}`), not a store handle: `return stores[name]`
returns the registry's state entry, an object with none of the handle
methods (`get`/`set`/`subscribe`/`bind` promised by the README). -/
theorem createStore_reregistration_returns_state_object :
    (createStoreM emptyRegistry "x" [("a", JsVal.num 1)]).2 = CreateRes.handle "x" ∧
    (createStoreM (createStoreM emptyRegistry "x" [("a", JsVal.num 1)]).1 "x"
        [("b", JsVal.num 2)]).1
      = (createStoreM emptyRegistry "x" [("a", JsVal.num 1)]).1 ∧
    (createStoreM (createStoreM emptyRegistry "x" [("a", JsVal.num 1)]).1 "x"
        [("b", JsVal.num 2)]).2
      = CreateRes.raw [("a", JsVal.num 1)] :=
  ⟨rfl, rfl, rfl⟩

/-- Claim C2 counterexample: with `derive("d", ["a"], branchCompute)`,
after `aStore.set({x:1})` returns, the derived state is `{q:2, p:1}` —
the stale `q` key from the initial recomputation persists through the
shallow merge `set` performs — while the compute function applied to the
current live dep states is `{p:1}`.  The derived state therefore does
not equal the compute result, refuting the claim as stated. -/
theorem derived_state_diverges_from_compute :
    createStoreM emptyRegistry "a" [] = (regA0, CreateRes.handle "a") ∧
    deriveM 5 regA0 "d" ["a"] branchCompute = .ok (regA1, [], CreateRes.handle "d") ∧
    setStore 5 regA1 "a" (.oobj [("x", JsVal.num 1)]) false
      = .ok (regA2, [], [("x", JsVal.num 1)]) ∧
    ("d", dspecB) ∈ regA2.derived ∧ "a" ∈ dspecB.deps ∧
    storeObjD regA2 "d" = [("q", JsVal.num 2), ("p", JsVal.num 1)] ∧
    computeNow regA2 dspecB = [("p", JsVal.num 1)] ∧
    storeObjD regA2 "d" ≠ computeNow regA2 dspecB := by
  refine ⟨rfl, rfl, rfl, List.mem_cons_self _ _, List.mem_cons_self _ _, rfl, rfl, ?_⟩
  intro hEq
  exact absurd (congrArg List.length hEq) (by decide)

/-- Claim C2 (amended): after a `set` call on a store `s` returns, every
derived spec listing `s` in its `deps` (the derived store itself not
being the `set` target) *agrees* with its compute function applied to
the current live states of its deps, read positionally in list order:
every key bound in the compute result is bound to the same value in the
derived state.  Full equality fails only because `set` writes the result
with a shallow merge that never removes keys (see the counterexample). -/
theorem set_recomputes_dependent_derived (fuel : Nat) (reg : Registry) (s : String)
    (u : Updater) (si : Bool) (r : Registry) (l : Log) (n : Obj)
    (hok : setStore fuel reg s u si = .ok (r, l, n))
    (hDK : DerivedKeysNodup reg) (hCN : ComputesNodup reg)
    (k : String) (d : DSpec) (hkd : (k, d) ∈ reg.derived)
    (hdep : s ∈ d.deps) (hks : k ≠ s) :
    agreeAt r k d :=
  (setStore_agree_master fuel).1 reg s u si r l n hok hDK hCN k d hkd hks (Or.inr hdep)

/-- Witness for the amended C2 at a concrete input: setting `{x:1}` on
store `a` of `regW` recomputes the derived store `d`, which agrees with
`constCompute` of the live states afterwards. -/
theorem set_recomputes_dependent_derived_witness :
    setStore 3 regW "a" (.oobj [("x", JsVal.num 1)]) false
      = .ok (regWFinal, [⟨"a", 7, [("x", JsVal.num 1)], []⟩], [("x", JsVal.num 1)]) ∧
    agreeAt regWFinal "d" dspecC :=
  ⟨rfl,
   set_recomputes_dependent_derived 3 regW "a" (.oobj [("x", JsVal.num 1)]) false
     regWFinal [⟨"a", 7, [("x", JsVal.num 1)], []⟩] [("x", JsVal.num 1)] rfl
     regW_derivedKeysNodup regW_computesNodup "d" dspecC (List.mem_cons_self _ _)
     (List.mem_cons_self _ _) (by decide)⟩

/-- Claim C3: `set(u, {silent: true})` invokes none of the store's own
listeners for this transition — its log is exactly the non-silent run's
log with the store's own fan-out block removed — while producing the
same final registry and return value, and it still recomputes every
derived spec whose `deps` contain the store's name (each such spec
agrees with its compute value afterwards). -/
theorem silent_set_skips_own_listeners_only (fuel : Nat) (reg : Registry) (s : String)
    (u : Updater) (r : Registry) (l : Log) (n : Obj)
    (hok : setStore (fuel + 1) reg s u false = .ok (r, l, n))
    (hDK : DerivedKeysNodup reg) (hCN : ComputesNodup reg) :
    ∃ ls D, lookupA s reg.listeners = some ls ∧
      l = (ls.map fun lid => NotifEvent.mk s lid n (storeObjD reg s)) ++ D ∧
      setStore (fuel + 1) reg s u true = .ok (r, D, n) ∧
      ∀ k d, (k, d) ∈ reg.derived → k ≠ s → s ∈ d.deps → agreeAt r k d := by
  obtain ⟨hn, notif, dlog, hnf, hsc, hl⟩ := setStore_succ_elim hok
  obtain ⟨ls, hls, hmap⟩ := notifyList_ok_elim hnf
  subst hn
  refine ⟨ls, dlog, hls, by rw [hl, hmap], ?_, ?_⟩
  · have := @setStore_succ_intro fuel reg s u true r [] dlog
      (notifyList_silent reg s _ _) hsc
    simpa using this
  · intro k d hkd hks hdep
    exact (setStore_agree_master (fuel + 1)).1 reg s u false r l _ hok hDK hCN
      k d hkd hks (Or.inr hdep)

/-- Witness for C3 at a concrete input: the silent set on `a` of `regW`
reaches the same final registry and return value as the non-silent one,
with the `a`-listener fan-out block dropped from the log, and the
dependent derived store `d` agrees afterwards. -/
theorem silent_set_skips_own_listeners_only_witness :
    setStore 3 regW "a" (.oobj [("x", JsVal.num 1)]) false
      = .ok (regWFinal, [⟨"a", 7, [("x", JsVal.num 1)], []⟩], [("x", JsVal.num 1)]) ∧
    setStore 3 regW "a" (.oobj [("x", JsVal.num 1)]) true
      = .ok (regWFinal, [], [("x", JsVal.num 1)]) ∧
    agreeAt regWFinal "d" dspecC := by
  obtain ⟨ls, D, h1, h2, h3, h4⟩ :=
    silent_set_skips_own_listeners_only 2 regW "a" (.oobj [("x", JsVal.num 1)])
      regWFinal [⟨"a", 7, [("x", JsVal.num 1)], []⟩] [("x", JsVal.num 1)] rfl
      regW_derivedKeysNodup regW_computesNodup
  exact ⟨rfl, rfl,
    h4 "d" dspecC (List.mem_cons_self _ _) (by decide) (List.mem_cons_self _ _)⟩

/-- Claim C4: a non-silent `set` returns
`nextState = applyUpdater u prevState` with `prevState` the snapshot
captured before the mutation, and its log starts with the fan-out block
notifying each currently-subscribed listener exactly once (the listener
set being duplicate-free) with the pair `(nextState, prevState)`, in
iteration order, ahead of any derived-recomputation events `D`. -/
theorem set_notifies_each_listener_once (fuel : Nat) (reg : Registry) (s : String)
    (u : Updater) (r : Registry) (l : Log) (n : Obj) (ls : List Nat)
    (hok : setStore (fuel + 1) reg s u false = .ok (r, l, n))
    (hls : lookupA s reg.listeners = some ls) (hnd : ls.Nodup) :
    n = applyUpdater u (storeObjD reg s) ∧
    ∃ D, l = (ls.map fun lid => NotifEvent.mk s lid n (storeObjD reg s)) ++ D ∧
      ∀ lid ∈ ls,
        ((ls.map fun lid' => NotifEvent.mk s lid' n (storeObjD reg s)).countP
          (fun e => e.listener == lid)) = 1 := by
  obtain ⟨hn, notif, dlog, hnf, hsc, hl⟩ := setStore_succ_elim hok
  obtain ⟨ls', hls', hmap⟩ := notifyList_ok_elim hnf
  rw [hls] at hls'
  injection hls' with hls'
  subst hls'
  subst hn
  refine ⟨rfl, dlog, by rw [hl, hmap], ?_⟩
  intro lid hmem
  rw [List.countP_map]
  have hcomp : ((fun e => e.listener == lid) ∘ fun lid' =>
      NotifEvent.mk s lid' (applyUpdater u (storeObjD reg s)) (storeObjD reg s))
      = (fun lid' => lid' == lid) := rfl
  rw [hcomp]
  exact List.count_eq_one_of_mem hnd hmem

/-- Witness for C4 at a concrete input: the non-silent set on `a` of
`regW` notifies its single listener (id 7) exactly once with
`(nextState, prevState)`. -/
theorem set_notifies_each_listener_once_witness :
    ([("x", JsVal.num 1)] : Obj)
      = applyUpdater (.oobj [("x", JsVal.num 1)]) (storeObjD regW "a") ∧
    ((([7] : List Nat).map fun lid' =>
        NotifEvent.mk "a" lid' [("x", JsVal.num 1)] (storeObjD regW "a")).countP
        (fun e => e.listener == 7)) = 1 := by
  obtain ⟨h1, D, h2, h3⟩ :=
    set_notifies_each_listener_once 2 regW "a" (.oobj [("x", JsVal.num 1)]) regWFinal
      [⟨"a", 7, [("x", JsVal.num 1)], []⟩] [("x", JsVal.num 1)] [7] rfl rfl (by decide)
  exact ⟨h1, h3 7 (List.mem_cons_self _ _)⟩

/-- Claim C5: when a name is already registered by `createStore`, a
subsequent `derive` under that name throws a `TypeError` during its
immediate initial recomputation: `createStore(name)` hands the `update`
closure the raw state object, whose `set` is not a function. -/
theorem derive_after_createStore_throws (reg : Registry) (name : String) (o : Obj)
    (hex : lookupA name reg.stores = some o)
    (fuel : Nat) (deps : List String) (computeFn : List JsVal → Obj) :
    deriveM fuel reg name deps computeFn = .error .typeError := by
  simp only [deriveM, createStoreM, hex]
  rfl

/-- Witness for C5 at a concrete input: `derive("a", [], constCompute)`
after `createStore("a", {})` throws. -/
theorem derive_after_createStore_throws_witness :
    lookupA "a" regA0.stores = some [] ∧
    deriveM 2 regA0 "a" [] constCompute = .error .typeError :=
  ⟨rfl, derive_after_createStore_throws regA0 "a" [] rfl 2 [] constCompute⟩

/-- Claim C6: `get()` with no path hands the caller a *fresh* object
(its address differs from the store's) carrying the same top-level
fields; a caller's top-level write through the returned address leaves
the store object — and hence the result of any subsequent `get()` —
unchanged. -/
theorem get_snapshot_isolated (h : Heap) (a : Nat) (ha : a < h.objs.length)
    (k : String) (v : JsVal) :
    (getSnapshot h a).2 ≠ a ∧
    (getSnapshot h a).1.read (getSnapshot h a).2 = h.read a ∧
    ((getSnapshot h a).1.writeField (getSnapshot h a).2 k v).read a = h.read a ∧
    (getSnapshot ((getSnapshot h a).1.writeField (getSnapshot h a).2 k v) a).1.read
      (getSnapshot ((getSnapshot h a).1.writeField (getSnapshot h a).2 k v) a).2
      = h.read a := by
  have hne : (getSnapshot h a).2 ≠ a := by
    show h.objs.length ≠ a
    exact fun hh => absurd (hh ▸ ha) (lt_irrefl _)
  have hold : ((getSnapshot h a).1.writeField (getSnapshot h a).2 k v).read a = h.read a := by
    rw [heap_read_write_ne _ hne k v]
    exact heap_read_alloc_old h _ ha
  refine ⟨hne, heap_read_alloc_fresh h _, hold, ?_⟩
  exact (heap_read_alloc_fresh
    ((getSnapshot h a).1.writeField (getSnapshot h a).2 k v) _).trans hold

/-- Witness for C6 at a concrete input: a one-object heap holding the
store state `{k: 0}` at address 0. -/
theorem get_snapshot_isolated_witness :
    0 < heapW.objs.length ∧
    ((getSnapshot heapW 0).1.writeField (getSnapshot heapW 0).2 "k" (JsVal.num 5)).read 0
      = heapW.read 0 :=
  ⟨by decide, (get_snapshot_isolated heapW 0 (by decide) "k" (JsVal.num 5)).2.2.1⟩

/-- Claim C7: `getNestedValue` never raises — every lookup over the
optional-chained reduce returns an `ok` value — and once the walk
reaches an object missing the next key, the whole lookup yields
`undefined` (the `undefined` intermediate propagates through the
remaining keys). -/
theorem get_path_safe_lookup :
    (∀ (o : JsVal) (p : String), ∃ w, getNestedValue o p = .ok w) ∧
    (∀ (v : JsVal) (ks1 : List String) (k : String) (ks2 : List String) (fs : Obj),
      nestLookup v ks1 = .ok (.obj fs) → lookupA k fs = none →
      nestLookup v (ks1 ++ k :: ks2) = .ok .undef) := by
  constructor
  · intro o p
    exact nestLookup_total o (p.splitOn ".")
  · intro v ks1 k ks2 fs h1 h2
    rw [nestLookup_append h1, nestLookup]
    have hoc : optChain (.obj fs) k = .ok .undef := by
      rw [show optChain (.obj fs) k = .ok ((lookupA k fs).getD .undef) from rfl, h2]
      rfl
    rw [hoc]
    exact nestLookup_undef ks2

/-- Witness for C7 at a concrete input: looking up the key sequence of
`'a.missing.b'` on state `{a: {}}` yields `undefined` — the missing
intermediate key does not raise. -/
theorem get_path_safe_lookup_witness :
    nestLookup (JsVal.obj [("a", JsVal.obj [])]) (["a"] ++ "missing" :: ["b"])
      = .ok .undef :=
  get_path_safe_lookup.2 (JsVal.obj [("a", JsVal.obj [])]) ["a"] "missing" ["b"] [] rfl rfl

/-- Claim C8 counterexample: when the subscribed callback was *already*
a member of the listener set (`Set.add` of an existing member is a
no-op), calling the returned unsubscribe handle deletes the original
registration too, so the set is not restored to its pre-subscription
membership: `{5}` before the subscribe, `{}` after the unsubscribe. -/
theorem unsubscribe_after_duplicate_subscribe :
    listenersOf regS "s" = [5] ∧
    listenersOf (unsubscribe (subscribe regS "s" 5) "s" 5) "s" = [] ∧
    listenersOf (unsubscribe (subscribe regS "s" 5) "s" 5) "s" ≠ listenersOf regS "s" := by
  refine ⟨rfl, rfl, ?_⟩
  decide

/-- Claim C8 (amended): provided the listener was *not already*
subscribed, calling the unsubscribe handle restores the listener set to
its exact pre-subscription membership, a second call is a no-op (and,
being a total `Set.delete`, raises no error), and the listener is no
longer a member — so it receives no further fan-out notifications from
this store. -/
theorem subscribe_unsubscribe_roundtrip (reg : Registry) (name : String) (lid : Nat)
    (h : lid ∉ listenersOf reg name) :
    listenersOf (unsubscribe (subscribe reg name lid) name lid) name
      = listenersOf reg name ∧
    listenersOf (unsubscribe (unsubscribe (subscribe reg name lid) name lid) name lid) name
      = listenersOf (unsubscribe (subscribe reg name lid) name lid) name ∧
    lid ∉ listenersOf (unsubscribe (subscribe reg name lid) name lid) name := by
  have h1 : listenersOf (unsubscribe (subscribe reg name lid) name lid) name
      = listenersOf reg name := by
    rw [listenersOf_unsubscribe_self, listenersOf_subscribe_self,
      removeListener_addListener h]
  refine ⟨h1, ?_, ?_⟩
  · rw [listenersOf_unsubscribe_self, h1, removeListener_of_not_mem h]
  · rw [h1]
    exact h

/-- Witness for the amended C8 at a concrete input: listener 7 is not
subscribed to store `s` of `regS`; subscribing then unsubscribing it
restores the set `{5}`. -/
theorem subscribe_unsubscribe_roundtrip_witness :
    listenersOf (unsubscribe (subscribe regS "s" 7) "s" 7) "s" = listenersOf regS "s" ∧
    listenersOf (unsubscribe (unsubscribe (subscribe regS "s" 7) "s" 7) "s" 7) "s"
      = listenersOf (unsubscribe (subscribe regS "s" 7) "s" 7) "s" :=
  ⟨(subscribe_unsubscribe_roundtrip regS "s" 7 (by decide)).1,
   (subscribe_unsubscribe_roundtrip regS "s" 7 (by decide)).2.1⟩

/-- Claim C9 counterexample: `derive` returns the full read-write store
handle, so a caller *can* mutate a derived store's content directly:
after `derive("d", ["a"], branchCompute)`, the caller's
`dStore.set({z: 9})` succeeds and leaves `z ↦ 9` in the derived state —
a binding no run of `branchCompute` ever outputs, so this write was not
a compute re-run. -/
theorem derived_store_mutated_by_caller :
    deriveM 5 regA0 "d" ["a"] branchCompute = .ok (regA1, [], CreateRes.handle "d") ∧
    setStore 5 regA1 "d" (.oobj [("z", JsVal.num 9)]) false
      = .ok (regA3, [], [("q", JsVal.num 2), ("z", JsVal.num 9)]) ∧
    lookupA "z" (storeObjD regA3 "d") = some (JsVal.num 9) ∧
    lookupA "z" (computeNow regA3 dspecB) = none ∧
    storeObjD regA3 "d" ≠ computeNow regA3 dspecB := by
  refine ⟨rfl, rfl, rfl, rfl, ?_⟩
  intro hEq
  exact absurd (congrArg List.length hEq) (by decide)

/-- Claim C9 (amended): the propagation engine itself writes derived
stores only through their compute re-runs: a `set` on store `s` leaves
every store that is neither `s` nor a derived key untouched, and every
derived store other than `s` that agreed with its compute value still
agrees afterwards.  What fails in the claim as stated is only the
"never mutated directly by a caller" part: `derive` exposes `set` on the
derived handle (see the counterexample). -/
theorem set_writes_only_target_and_derived (fuel : Nat) (reg : Registry) (s : String)
    (u : Updater) (si : Bool) (r : Registry) (l : Log) (n : Obj)
    (hok : setStore fuel reg s u si = .ok (r, l, n))
    (hDK : DerivedKeysNodup reg) (hCN : ComputesNodup reg) :
    (∀ c, c ≠ s → c ∉ reg.derived.map Prod.fst → storeObjD r c = storeObjD reg c) ∧
    (∀ k d, (k, d) ∈ reg.derived → k ≠ s → agreeAt reg k d → agreeAt r k d) := by
  constructor
  · exact setStore_frame fuel reg s u si r l n hok
  · intro k d hkd hks ha
    exact (setStore_agree_master fuel).1 reg s u si r l n hok hDK hCN k d hkd hks (Or.inl ha)

/-- Witness for the amended C9 at a concrete input: setting `a` of
`regW` leaves the unrelated store `b` untouched and keeps the derived
store `d` agreeing with its compute value. -/
theorem set_writes_only_target_and_derived_witness :
    storeObjD regWFinal "b" = storeObjD regW "b" ∧ agreeAt regWFinal "d" dspecC := by
  obtain ⟨hframe, hagree⟩ :=
    set_writes_only_target_and_derived 3 regW "a" (.oobj [("x", JsVal.num 1)]) false
      regWFinal [⟨"a", 7, [("x", JsVal.num 1)], []⟩] [("x", JsVal.num 1)] rfl
      regW_derivedKeysNodup regW_computesNodup
  refine ⟨hframe "b" (by decide) (by decide), ?_⟩
  refine hagree "d" dspecC (List.mem_cons_self _ _) (by decide) ?_
  intro key v hv
  exact hv

/-- Claim C10: all effects of a non-silent `set` are contained in its
result (the model is a pure function, mirroring the fully synchronous
call chain): the log places the listener fan-out block ahead of all
derived-recomputation events, and — starting from a steady state where
every derived store agreed — at return *every* derived store other than
the target agrees with its compute value again, covering transitively
triggered derived-of-derived recomputation. -/
theorem set_effects_complete_before_return (fuel : Nat) (reg : Registry) (s : String)
    (u : Updater) (r : Registry) (l : Log) (n : Obj)
    (hok : setStore (fuel + 1) reg s u false = .ok (r, l, n))
    (hDK : DerivedKeysNodup reg) (hCN : ComputesNodup reg)
    (hsteady : ∀ k d, (k, d) ∈ reg.derived → k ≠ s → agreeAt reg k d) :
    (∃ ls D, lookupA s reg.listeners = some ls ∧
      l = (ls.map fun lid => NotifEvent.mk s lid n (storeObjD reg s)) ++ D) ∧
    (∀ k d, (k, d) ∈ reg.derived → k ≠ s → agreeAt r k d) := by
  obtain ⟨hn, notif, dlog, hnf, hsc, hl⟩ := setStore_succ_elim hok
  obtain ⟨ls, hls, hmap⟩ := notifyList_ok_elim hnf
  subst hn
  constructor
  · exact ⟨ls, dlog, hls, by rw [hl, hmap]⟩
  · intro k d hkd hks
    by_cases hdep : s ∈ d.deps
    · exact (setStore_agree_master (fuel + 1)).1 reg s u false r l _ hok hDK hCN
        k d hkd hks (Or.inr hdep)
    · exact (setStore_agree_master (fuel + 1)).1 reg s u false r l _ hok hDK hCN
        k d hkd hks (Or.inl (hsteady k d hkd hks))

/-- Witness for C10 at a concrete input: the set on `a` of `regW`
completes with the fan-out observed and the derived store `d` agreeing
at return. -/
theorem set_effects_complete_before_return_witness :
    lookupA "a" regW.listeners = some [7] ∧ agreeAt regWFinal "d" dspecC := by
  obtain ⟨h1, h2⟩ :=
    set_effects_complete_before_return 2 regW "a" (.oobj [("x", JsVal.num 1)]) regWFinal
      [⟨"a", 7, [("x", JsVal.num 1)], []⟩] [("x", JsVal.num 1)] rfl
      regW_derivedKeysNodup regW_computesNodup
      (by
        intro k d hm hk
        have h := List.mem_singleton.mp hm
        injection h with h1 h2
        subst h1
        subst h2
        intro key v hv
        exact hv)
  exact ⟨rfl, h2 "d" dspecC (List.mem_cons_self _ _) (by decide)⟩

end StateSync
